import Mathlib

set_option maxHeartbeats 1000000

/-!
Verification of the `NativeEmbedder` component of
`server/utils/EmbeddingEngines/native/index.js`.

The embedding is shallow: pure JavaScript logic becomes Lean functions, the
scratch temp file becomes an explicit `Option (List Tok)` state (absent or a
sequence of appended fragments), the inference pipeline and the network are
opaque parameters, and exceptions become `Except`.  The scratch-file content is
modelled at the granularity of the individual `#writeToTempfile` calls the
source makes: an opening bracket, a `JSON.stringify` of one batch output, a
separating comma, and a closing bracket.  `JSON.parse` over a concatenation of
such fragments succeeds exactly when the fragments form a syntactically
complete JSON array, which the token-level parser `jsonParse` below captures.
-/

/-- Embedding vector: ordered sequence of numbers.  The numeric values are
irrelevant to every property proved here, so JSON numbers are abstracted as
integers. -/
abbrev Vec : Type := List Int

/-- One fragment appended to the scratch file by `embedChunks`
(`index.js` lines 248, 263-267): the opening bracket written on the first
iteration, the stringified batch output `JSON.stringify(output.tolist())`,
the separating comma, and the closing bracket. -/
inductive Tok : Type
  | lbracket : Tok
  | rbracket : Tok
  | comma : Tok
  | data : List Vec → Tok

deriving instance DecidableEq for Tok

/-- State of the scratch file: `none` when the file does not exist (it is only
ever created by the first `fs.promises.appendFile`), `some frags` when it holds
the concatenation of the fragments `frags`. -/
abbrev ScratchFile : Type := Option (List Tok)

/-- Model of `#writeToTempfile` (`index.js` lines 122-128):
`fs.promises.appendFile` creates the file when absent and appends. -/
def appendTok (file : ScratchFile) (t : Tok) : ScratchFile :=
  some (file.getD [] ++ [t])

/-- Modelled from the spec: `toChunks` (imported from `../../helpers`, not part
of the sources here) partitions a list into ordered batches of size at most
`size`, preserving the original order across and within batches. -/
def toChunks : List α → Nat → List (List α)
  | [], _ => []
  | _ :: _, 0 => []
  | x :: rest, n + 1 =>
    (x :: rest).take (n + 1) :: toChunks ((x :: rest).drop (n + 1)) (n + 1)
termination_by xs _ => xs.length
decreasing_by
  simp only [List.length_drop, List.length_cons]
  omega

/-- Token-level model of `JSON.parse` applied to the scratch-file content after
the opening bracket and the first stringified batch: a well-formed remainder is
either an immediate closing bracket or a comma-separated sequence of further
batch fragments ending in the closing bracket. -/
def parseSep : List Tok → Option (List (List Vec))
  | [Tok.rbracket] => some []
  | Tok.comma :: Tok.data d :: rest =>
    match parseSep rest with
    | some ds => some (d :: ds)
    | none => none
  | _ => none

/-- Token-level model of `JSON.parse` on the whole scratch-file content
(`index.js` line 273): each `Tok.data` fragment is itself a well-formed JSON
array of vectors, so the concatenation parses exactly when the fragments form
`[`, batch, (`,` batch)*, `]` (or the degenerate `[]`), yielding the list of
batch outputs. -/
def jsonParse : List Tok → Option (List (List Vec))
  | [Tok.lbracket, Tok.rbracket] => some []
  | Tok.lbracket :: Tok.data d :: rest =>
    match parseSep rest with
    | some ds => some (d :: ds)
    | none => none
  | _ => none

/-- Model of the write on the first loop iteration
(`if (idx === 0) await this.#writeToTempfile(tmpFilePath, "[")`, line 248). -/
def openFile (idx : Nat) (file : ScratchFile) : ScratchFile :=
  if idx = 0 then appendTok file Tok.lbracket else file

/-- Model of the two complementary writes after a batch's data
(`index.js` lines 266-267): a separating comma when this is not the last
batch, the closing bracket when it is. -/
def closeFile (chunkLen idx : Nat) (file : ScratchFile) : ScratchFile :=
  if chunkLen - 1 = idx then appendTok file Tok.rbracket
  else appendTok file Tok.comma

/-- Errors that can escape `embedChunks`: an acquisition error thrown by
`embedderClient` (carrying the opaque underlying error `E`), a `JSON.parse`
failure, and the `ENOENT` thrown by `fs.readFileSync` when the scratch file
was never created. -/
inductive EmbedError (E : Type) : Type
  | acquisition : E → EmbedError E
  | parseError : EmbedError E
  | readMissing : EmbedError E

deriving instance DecidableEq for EmbedError

/-- The per-batch loop of `embedChunks` (`index.js` lines 247-271).  `client`
models `this.embedderClient()` at each iteration: either the inference
capability (a function from a batch of strings to the batch's vectors) or the
thrown acquisition error.  Returns the scratch-file state together with the
thrown error, if any: an acquisition failure aborts the loop immediately. -/
def runBatches (client : Nat → Except E (List String → List Vec)) (chunkLen : Nat) :
    Nat → List (List String) → ScratchFile → ScratchFile × Option E
  | _, [], file => (file, none)
  | idx, chunk :: rest, file =>
    match client idx with
    | Except.error e => (openFile idx file, some e)
    | Except.ok infer =>
      if (infer chunk).length = 0 then
        runBatches client chunkLen (idx + 1) rest (openFile idx file)
      else
        runBatches client chunkLen (idx + 1) rest
          (closeFile chunkLen idx (appendTok (openFile idx file) (Tok.data (infer chunk))))

/-- Result of one `embedChunks` call: the value returned or error thrown, and
the final state of the scratch file (left on disk or removed). -/
structure EmbedOutcome (E : Type) : Type where
  result : Except (EmbedError E) (Option (List Vec))
  file : ScratchFile

/-- Read-back phase of `embedChunks` (`index.js` lines 273-277): read the
scratch file (`ENOENT` when it was never created), `JSON.parse` it (a failure
throws before the `fs.rmSync` line is reached, so the file stays), then delete
the file and return the flattened result, or `null` when the parsed array is
empty. -/
def finishRead (file : ScratchFile) : EmbedOutcome E :=
  match file with
  | none => ⟨Except.error EmbedError.readMissing, none⟩
  | some toks =>
    match jsonParse toks with
    | none => ⟨Except.error EmbedError.parseError, some toks⟩
    | some results =>
      ⟨Except.ok (if results.length > 0 then some results.flatten else none), none⟩

/-- Model of `embedChunks` (`index.js` lines 242-278), parameterised by the
acquisition outcome per iteration and by `this.maxConcurrentChunks`. -/
def embedChunks (client : Nat → Except E (List String → List Vec))
    (maxConcurrentChunks : Nat) (textChunks : List String) : EmbedOutcome E :=
  let chunks := toChunks textChunks maxConcurrentChunks
  let chunkLen := chunks.length
  match runBatches client chunkLen 0 chunks none with
  | (file, some e) => ⟨Except.error (EmbedError.acquisition e), file⟩
  | (file, none) => finishRead file

/-- Outputs that actually get written: the loop drops a batch whose output has
length zero (`if (output.length === 0) ... continue`, lines 256-261). -/
def keepOuts (outs : List (List Vec)) : List (List Vec) :=
  outs.filter (fun o => o.length != 0)

/-- Shape of the scratch file in the middle of the loop: every batch written so
far was a non-final batch, so each was followed by a comma. -/
def midToks : List (List Vec) → List Tok
  | [] => []
  | d :: ds => Tok.data d :: Tok.comma :: midToks ds

/-- Tail shape of a completed scratch file after its first written batch:
comma-separated further batches, then the closing bracket. -/
def consToks : List (List Vec) → List Tok
  | [] => [Tok.rbracket]
  | d :: ds => Tok.comma :: Tok.data d :: consToks ds

/-- Shape of a completed scratch file after the opening bracket: the written
batches separated by commas, closed by the final bracket. -/
def sepToks : List (List Vec) → List Tok
  | [] => [Tok.rbracket]
  | d :: ds => Tok.data d :: consToks ds

/-! ### Model acquisition -/

/-- The two model sources: the default Hugging Face host used when no
`hostOverride` is passed to `#fetchWithHost`, and the fixed fallback host
`#fallbackHost` (`index.js` line 30). -/
inductive Host : Type
  | primary : Host
  | fallback : Host

deriving instance DecidableEq for Host

/-- The object literal returned by `#fetchWithHost` (`index.js` lines 145-170):
the pipeline on success, the `retry` field (`false` or the fallback host,
modelled as `none` or `some Host.fallback`), and the caught error. -/
structure FetchResponse (E P : Type) : Type where
  pipeline : Option P
  retry : Option Host
  error : Option E

/-- One call of `#fetchWithHost` together with its observable side effects:
`progressEnabled` records whether the download-progress logging
(`progress_callback` and the `Downloading` log, `index.js` lines 135-158) was
attached, which the source does exactly when `this.modelDownloaded` is false;
`host` records the remote host the attempt used. -/
structure FetchAttempt (E P : Type) : Type where
  response : FetchResponse E P
  progressEnabled : Bool
  host : Host

/-- Model of `#fetchWithHost` (`index.js` lines 130-172).  The network and the
`@xenova/transformers` pipeline construction are the opaque environment
`env : Host → Except E P`: attempting a host either yields a pipeline or
throws.  On success `retry` is `false` (`none`); on failure `retry` is the
fallback host exactly when no override was requested (`hostOverride === null`).
-/
def fetchWithHost (env : Host → Except E P) (modelDownloaded : Bool)
    (hostOverride : Option Host) : FetchAttempt E P :=
  match env (hostOverride.getD Host.primary) with
  | Except.ok p =>
    ⟨⟨some p, none, none⟩, !modelDownloaded, hostOverride.getD Host.primary⟩
  | Except.error e =>
    ⟨⟨none, if hostOverride.isNone then some Host.fallback else none, some e⟩,
      !modelDownloaded, hostOverride.getD Host.primary⟩

/-- Result of one `embedderClient()` call (`index.js` lines 179-202): the
pipeline returned or the thrown `fetchResponse.error` (an `Option`, as the
source rethrows the nullable `error` field), the updated
`this.modelDownloaded` flag, the hosts attempted in order, and whether any
download-progress logging was attached during the call. -/
structure ClientOutcome (E P : Type) : Type where
  result : Except (Option E) P
  modelDownloaded : Bool
  attempts : List Host
  progressEnabled : Bool

/-- Model of `embedderClient` (`index.js` lines 179-202): try the primary
source; on failure retry once with `fetchResponse.retry` when it is set; on
success from either path set `this.modelDownloaded = true`; if the retry also
fails, throw the last response's error. -/
def embedderClient (env : Host → Except E P) (modelDownloaded : Bool) :
    ClientOutcome E P :=
  let a1 := fetchWithHost env modelDownloaded none
  match a1.response.pipeline with
  | some p => ⟨Except.ok p, true, [a1.host], a1.progressEnabled⟩
  | none =>
    match a1.response.retry with
    | some h =>
      let a2 := fetchWithHost env modelDownloaded (some h)
      match a2.response.pipeline with
      | some p =>
        ⟨Except.ok p, true, [a1.host, a2.host],
          a1.progressEnabled || a2.progressEnabled⟩
      | none =>
        ⟨Except.error a2.response.error, modelDownloaded, [a1.host, a2.host],
          a1.progressEnabled || a2.progressEnabled⟩
    | none =>
      ⟨Except.error a1.response.error, modelDownloaded, [a1.host], a1.progressEnabled⟩

/-! ### Model registry and resolver -/

/-- The `apiInfo` block of a supported model (see the type annotation at
`index.js` lines 10-24). -/
structure ApiInfo : Type where
  id : String
  name : String
  description : String
  lang : String
  size : String
  modelCard : String

deriving instance DecidableEq for ApiInfo

/-- Modelled from the spec: one ModelDescriptor of the registry
(`SUPPORTED_NATIVE_EMBEDDING_MODELS` from `./constants` is not part of the
sources here), carrying the fields the source reads. -/
structure ModelSettings : Type where
  chunkPrefix : String
  queryPrefix : String
  maxConcurrentChunks : Nat
  embeddingMaxChunkLength : Nat
  apiInfo : ApiInfo

deriving instance DecidableEq for ModelSettings

/-- `NativeEmbedder.defaultModel` (`index.js` line 8). -/
def defaultModel : String := "Xenova/all-MiniLM-L6-v2"

/-- Model of `getEmbeddingModel` (`index.js` lines 95-100).  The registry is
the opaque map `reg` (a supported identifier maps to its descriptor);
`envModelPref` is `process.env.EMBEDDING_MODEL_PREF`, `none` when unset (the
`??` nullish-coalescing defaults it, so the empty string is NOT defaulted). -/
def getEmbeddingModel (reg : String → Option ModelSettings)
    (envModelPref : Option String) : String :=
  let envModel := envModelPref.getD defaultModel
  if (reg envModel).isSome then envModel else defaultModel

/-- Model of `getEmbedderInfo` (`index.js` lines 108-111): look up the
descriptor of the resolved model identifier. -/
def getEmbedderInfo (reg : String → Option ModelSettings)
    (envModelPref : Option String) : Option ModelSettings :=
  reg (getEmbeddingModel reg envModelPref)

/-! ### Prefix application and single-text embedding -/

/-- The `string | string[]` union accepted by `#applyQueryPrefix` and
`embedTextInput` (`index.js` lines 210-229). -/
inductive TextInput : Type
  | single : String → TextInput
  | list : List String → TextInput

deriving instance DecidableEq for TextInput

/-- Model of `#applyQueryPrefix` (`index.js` lines 210-216): identity when the
model queryPrefix is falsy (the empty string), otherwise prepend it to the
single string or to every element of the list. -/
def applyQueryPrefix (queryPrefix : String) (textInput : TextInput) : TextInput :=
  if queryPrefix = "" then textInput
  else
    match textInput with
    | TextInput.list ss => TextInput.list (ss.map (fun text => queryPrefix ++ text))
    | TextInput.single s => TextInput.single (queryPrefix ++ s)

/-- The post-processing `result?.[0] || []` of `embedTextInput`
(`index.js` line 228): the first vector of the pipeline result, or the empty
vector when the result is `null` or has no first element. -/
def firstOrEmpty (r : Option (List Vec)) : Vec :=
  (r.bind List.head?).getD []

/-- Model of `embedTextInput` (`index.js` lines 223-229): apply the query
prefix, wrap a single string into a one-element array, delegate to
`embedChunks`, and return the first vector or the empty vector. -/
def embedTextInput (client : Nat → Except E (List String → List Vec))
    (maxConcurrentChunks : Nat) (queryPrefix : String) (textInput : TextInput) :
    Except (EmbedError E) Vec :=
  let prefixed := applyQueryPrefix queryPrefix textInput
  let texts :=
    match prefixed with
    | TextInput.list ss => ss
    | TextInput.single s => [s]
  match (embedChunks client maxConcurrentChunks texts).result with
  | Except.error e => Except.error e
  | Except.ok r => Except.ok (firstOrEmpty r)

/-! ### Concrete fixtures for witnesses and counterexamples -/

/-- Pointwise inference capability: every text embeds to the vector `[1]`. -/
def inferOnes : List String → List Vec := fun b => b.map (fun _ => [1])

/-- Pointwise inference capability: every text embeds to the vector `[2]`. -/
def inferTwos : List String → List Vec := fun b => b.map (fun _ => [2])

/-- Inference capability that always returns the empty output. -/
def inferNothing : List String → List Vec := fun _ => []

/-- Inference capability returning an empty output on singleton batches and
one vector per text otherwise. -/
def inferDropSingles : List String → List Vec := fun b =>
  if b.length = 1 then [] else b.map (fun _ => [4])

/-- Inference capability embedding only singleton batches; larger batches get
an empty output. -/
def inferOnlySingles : List String → List Vec := fun b =>
  if b.length = 1 then [[9]] else []

/-- Acquisition that throws error `7` on the very first batch. -/
def clientFailsFirst : Nat → Except Nat (List String → List Vec) := fun j =>
  if j = 0 then Except.error 7 else Except.ok inferOnes

/-- Network environment on which every host fails with error `5`. -/
def envAllFail : Host → Except Nat Nat := fun _ => Except.error 5

/-- Network environment on which the primary host fails with error `3` and the
fallback host yields pipeline `1`. -/
def envFallbackOk : Host → Except Nat Nat := fun h =>
  match h with
  | Host.primary => Except.error 3
  | Host.fallback => Except.ok 1

/-- Descriptor fixture for the default model (`index.js` lines 8, 91). -/
def miniSettings : ModelSettings :=
  ⟨"", "", 25, 1000,
    ⟨"Xenova/all-MiniLM-L6-v2", "all-MiniLM-L6-v2", "default", "en", "23MB", ""⟩⟩

/-- Descriptor fixture for the second model the source names
(`index.js` line 92). -/
def nomicSettings : ModelSettings :=
  ⟨"search_document: ", "search_query: ", 25, 1000,
    ⟨"Xenova/nomic-embed-text-v1", "nomic-embed-text-v1", "", "en", "", ""⟩⟩

/-- Registry fixture holding the two models named in the source's comments. -/
def regFixture : String → Option ModelSettings := fun s =>
  if s = defaultModel then some miniSettings
  else if s = "Xenova/nomic-embed-text-v1" then some nomicSettings
  else none

/-! ### Properties of the batch partition -/

theorem toChunks_flatten (m : Nat) : ∀ xs : List α, (toChunks xs (m + 1)).flatten = xs
  | [] => by simp [toChunks]
  | x :: rest => by
    simp only [toChunks, List.flatten_cons]
    rw [toChunks_flatten m ((x :: rest).drop (m + 1))]
    exact List.take_append_drop ..
termination_by xs => xs.length
decreasing_by
  simp only [List.length_drop, List.length_cons]
  omega

theorem toChunks_cons_ne_nil (m : Nat) (x : α) (rest : List α) :
    toChunks (x :: rest) (m + 1) ≠ [] := by
  simp [toChunks]

theorem toChunks_mem_ne_nil (m : Nat) :
    ∀ (xs : List α), ∀ c ∈ toChunks xs (m + 1), c ≠ []
  | [] => by simp [toChunks]
  | x :: rest => by
    intro c hc
    simp only [toChunks, List.mem_cons] at hc
    rcases hc with hc | hc
    · subst hc
      simp [List.take_succ_cons]
    · exact toChunks_mem_ne_nil m ((x :: rest).drop (m + 1)) c hc
termination_by xs => xs.length
decreasing_by
  simp only [List.length_drop, List.length_cons]
  omega

theorem mem_of_getLast?_eq {l : List α} {a : α} (h : l.getLast? = some a) : a ∈ l := by
  have hx : a ∈ l.getLast? := by rw [h]; exact Option.mem_def.mpr rfl
  obtain ⟨hne, rfl⟩ := List.mem_getLast?_eq_getLast hx
  exact List.getLast_mem hne

/-! ### The scratch-file shapes produced by the loop -/

theorem keepOuts_cons_pos {o : List Vec} (rest : List (List Vec)) (h : o.length ≠ 0) :
    keepOuts (o :: rest) = o :: keepOuts rest := by
  simp [keepOuts, List.filter_cons, h]

theorem keepOuts_cons_neg {o : List Vec} (rest : List (List Vec)) (h : o.length = 0) :
    keepOuts (o :: rest) = keepOuts rest := by
  simp [keepOuts, List.filter_cons, h]

theorem keepOuts_flatten : ∀ outs : List (List Vec), (keepOuts outs).flatten = outs.flatten := by
  intro outs
  induction outs with
  | nil => rfl
  | cons o rest ih =>
    by_cases h : o.length = 0
    · have ho : o = [] := List.length_eq_zero.mp h
      rw [keepOuts_cons_neg rest h, ih, ho]
      simp
    · rw [keepOuts_cons_pos rest h]
      simp only [List.flatten_cons, ih]

theorem keepOuts_ne_nil :
    ∀ (outs : List (List Vec)) (d : List Vec),
      outs.getLast? = some d → d.length ≠ 0 → keepOuts outs ≠ [] := by
  intro outs
  induction outs with
  | nil => intro d h hd; simp at h
  | cons o rest ih =>
    intro d h hd
    rcases eq_or_ne rest [] with hrest | hrest
    · subst hrest
      simp only [List.getLast?_singleton, Option.some.injEq] at h
      subst h
      rw [keepOuts_cons_pos [] hd]
      simp
    · obtain ⟨b, l, rfl⟩ := List.exists_cons_of_ne_nil hrest
      rw [List.getLast?_cons_cons] at h
      have hrec := ih d h hd
      by_cases ho : o.length = 0
      · rw [keepOuts_cons_neg _ ho]
        exact hrec
      · rw [keepOuts_cons_pos _ ho]
        simp

theorem midToks_append (acc : List (List Vec)) (d : List Vec) :
    midToks (acc ++ [d]) = midToks acc ++ [Tok.data d, Tok.comma] := by
  induction acc with
  | nil => rfl
  | cons a acc ih => simp [midToks, ih]

theorem parseSep_consToks : ∀ ds : List (List Vec), parseSep (consToks ds) = some ds := by
  intro ds
  induction ds with
  | nil => rfl
  | cons d ds ih => simp [consToks, parseSep, ih]

theorem jsonParse_sepToks : ∀ ws : List (List Vec),
    jsonParse (Tok.lbracket :: sepToks ws) = some ws := by
  intro ws
  cases ws with
  | nil => rfl
  | cons d ds => simp [sepToks, jsonParse, parseSep_consToks]

theorem sepToks_cons_of_ne (d : List Vec) {ws : List (List Vec)} (h : ws ≠ []) :
    sepToks (d :: ws) = Tok.data d :: Tok.comma :: sepToks ws := by
  obtain ⟨w, ws2, rfl⟩ := List.exists_cons_of_ne_nil h
  rfl

/-! ### One-step unfolding of the loop -/

theorem runBatches_nil {E : Type} (client : Nat → Except E (List String → List Vec))
    (len idx : Nat) (file : ScratchFile) :
    runBatches client len idx [] file = (file, none) := rfl

theorem runBatches_cons {E : Type} (client : Nat → Except E (List String → List Vec))
    (len idx : Nat) (chunk : List String) (rest : List (List String)) (file : ScratchFile) :
    runBatches client len idx (chunk :: rest) file =
      match client idx with
      | Except.error e => (openFile idx file, some e)
      | Except.ok infer =>
        if (infer chunk).length = 0 then
          runBatches client len (idx + 1) rest (openFile idx file)
        else
          runBatches client len (idx + 1) rest
            (closeFile len idx (appendTok (openFile idx file) (Tok.data (infer chunk)))) := rfl

theorem runBatches_cons_okstep {E : Type} (infer : List String → List Vec)
    (len idx : Nat) (chunk : List String) (rest : List (List String)) (file : ScratchFile) :
    runBatches (E := E) (fun _ => Except.ok infer) len idx (chunk :: rest) file =
      if (infer chunk).length = 0 then
        runBatches (fun _ => Except.ok infer) len (idx + 1) rest (openFile idx file)
      else
        runBatches (fun _ => Except.ok infer) len (idx + 1) rest
          (closeFile len idx (appendTok (openFile idx file) (Tok.data (infer chunk)))) := rfl

theorem runBatches_cons_err {E : Type} (client : Nat → Except E (List String → List Vec))
    (len idx : Nat) (chunk : List String) (rest : List (List String)) (file : ScratchFile)
    (e : E) (h : client idx = Except.error e) :
    runBatches client len idx (chunk :: rest) file = (openFile idx file, some e) := by
  rw [runBatches_cons, h]

/-! ### The individual file writes, in terms of the mid-loop shape -/

theorem openStep (idx : Nat) (toks : List Tok) (hidx : idx ≠ 0) :
    openFile idx (some toks) = some toks := by
  simp [openFile, hidx]

theorem writeStep_mid (len idx : Nat) (acc : List (List Vec)) (d : List Vec)
    (hidx : idx ≠ 0) (hlen : len - 1 ≠ idx) :
    closeFile len idx (appendTok (openFile idx (some (Tok.lbracket :: midToks acc)))
        (Tok.data d)) =
      some (Tok.lbracket :: midToks (acc ++ [d])) := by
  simp [closeFile, openFile, appendTok, hidx, hlen, midToks_append]

theorem writeStep_last (len idx : Nat) (acc : List (List Vec)) (d : List Vec)
    (hidx : idx ≠ 0) (hlen : len - 1 = idx) :
    closeFile len idx (appendTok (openFile idx (some (Tok.lbracket :: midToks acc)))
        (Tok.data d)) =
      some (Tok.lbracket :: (midToks acc ++ [Tok.data d, Tok.rbracket])) := by
  simp [closeFile, openFile, appendTok, hidx, hlen]

theorem writeStep0_mid (len : Nat) (d : List Vec) (hlen : len - 1 ≠ 0) :
    closeFile len 0 (appendTok (openFile 0 none) (Tok.data d)) =
      some (Tok.lbracket :: midToks [d]) := by
  simp [closeFile, openFile, appendTok, hlen, midToks]

theorem writeStep0_last (len : Nat) (d : List Vec) (hlen : len - 1 = 0) :
    closeFile len 0 (appendTok (openFile 0 none) (Tok.data d)) =
      some (Tok.lbracket :: (midToks [] ++ [Tok.data d, Tok.rbracket])) := by
  simp [closeFile, openFile, appendTok, hlen, midToks]

/-! ### Characterisation of the loop on all-successful acquisitions -/

theorem runBatches_ok {E : Type} (infer : List String → List Vec) (len : Nat) :
    ∀ (rest : List (List String)) (idx : Nat) (acc : List (List Vec)),
      1 ≤ idx → idx + rest.length = len → rest ≠ [] →
      (∀ b, rest.getLast? = some b → (infer b).length ≠ 0) →
      runBatches (E := E) (fun _ => Except.ok infer) len idx rest
          (some (Tok.lbracket :: midToks acc)) =
        (some (Tok.lbracket :: (midToks acc ++ sepToks (keepOuts (rest.map infer)))), none) := by
  intro rest
  induction rest with
  | nil =>
    intro idx acc h1 h2 h3 h4
    exact absurd rfl h3
  | cons chunk rest ih =>
    intro idx acc h1 h2 h3 h4
    have hidx0 : idx ≠ 0 := by omega
    rcases eq_or_ne rest [] with hrest | hrest
    · subst hrest
      have hlast : (infer chunk).length ≠ 0 := h4 chunk (by simp)
      have hidx : len - 1 = idx := by
        simp only [List.length_cons, List.length_nil] at h2
        omega
      rw [runBatches_cons_okstep, if_neg hlast, writeStep_last len idx acc _ hidx0 hidx,
        runBatches_nil]
      rw [List.map_cons, List.map_nil, keepOuts_cons_pos _ hlast]
      simp [keepOuts, sepToks, consToks]
    · obtain ⟨c2, rest2, rfl⟩ := List.exists_cons_of_ne_nil hrest
      have hlen : len - 1 ≠ idx := by
        simp only [List.length_cons] at h2
        omega
      have h4x : ∀ b, (c2 :: rest2).getLast? = some b → (infer b).length ≠ 0 := by
        intro b hb
        exact h4 b (by rw [List.getLast?_cons_cons]; exact hb)
      have h2x : (idx + 1) + (c2 :: rest2).length = len := by
        simp only [List.length_cons] at h2 ⊢
        omega
      have hb0 : (c2 :: rest2).getLast? = some ((c2 :: rest2).getLast (by simp)) :=
        List.getLast?_eq_getLast_of_ne_nil (by simp)
      have hws : keepOuts ((c2 :: rest2).map infer) ≠ [] := by
        refine keepOuts_ne_nil _ (infer ((c2 :: rest2).getLast (by simp))) ?_ (h4x _ hb0)
        rw [List.getLast?_map, hb0]
        rfl
      by_cases hout : (infer chunk).length = 0
      · rw [runBatches_cons_okstep, if_pos hout, openStep idx _ hidx0,
          ih (idx + 1) acc (by omega) h2x (by simp) h4x]
        simp only [List.map_cons]
        rw [keepOuts_cons_neg _ hout]
      · rw [runBatches_cons_okstep, if_neg hout, writeStep_mid len idx acc _ hidx0 hlen,
          ih (idx + 1) (acc ++ [infer chunk]) (by omega) h2x (by simp) h4x]
        simp only [List.map_cons] at hws ⊢
        rw [keepOuts_cons_pos _ hout, sepToks_cons_of_ne _ hws, midToks_append]
        simp

theorem runBatches_full {E : Type} (infer : List String → List Vec)
    (chunks : List (List String)) (hne : chunks ≠ [])
    (hlast : ∀ b, chunks.getLast? = some b → (infer b).length ≠ 0) :
    runBatches (E := E) (fun _ => Except.ok infer) chunks.length 0 chunks none =
      (some (Tok.lbracket :: sepToks (keepOuts (chunks.map infer))), none) := by
  obtain ⟨c0, rest, rfl⟩ := List.exists_cons_of_ne_nil hne
  rcases eq_or_ne rest [] with hrest | hrest
  · subst hrest
    have hlast0 : (infer c0).length ≠ 0 := hlast c0 (by simp)
    rw [runBatches_cons_okstep, if_neg hlast0, writeStep0_last _ _ (by simp), runBatches_nil]
    rw [List.map_cons, List.map_nil, keepOuts_cons_pos _ hlast0]
    simp [keepOuts, sepToks, consToks, midToks]
  · obtain ⟨c2, rest2, rfl⟩ := List.exists_cons_of_ne_nil hrest
    have hlen : (c0 :: c2 :: rest2).length - 1 ≠ 0 := by
      simp only [List.length_cons]
      omega
    have h4x : ∀ b, (c2 :: rest2).getLast? = some b → (infer b).length ≠ 0 := by
      intro b hb
      exact hlast b (by rw [List.getLast?_cons_cons]; exact hb)
    have h2x : 1 + (c2 :: rest2).length = (c0 :: c2 :: rest2).length := by
      simp only [List.length_cons]
      omega
    have hb0 : (c2 :: rest2).getLast? = some ((c2 :: rest2).getLast (by simp)) :=
      List.getLast?_eq_getLast_of_ne_nil (by simp)
    have hws : keepOuts ((c2 :: rest2).map infer) ≠ [] := by
      refine keepOuts_ne_nil _ (infer ((c2 :: rest2).getLast (by simp))) ?_ (h4x _ hb0)
      rw [List.getLast?_map, hb0]
      rfl
    by_cases hout : (infer c0).length = 0
    · rw [runBatches_cons_okstep, if_pos hout]
      rw [show openFile 0 (none : ScratchFile) = some (Tok.lbracket :: midToks []) from rfl]
      rw [runBatches_ok (E := E) infer _ (c2 :: rest2) 1 [] (le_refl 1) h2x (by simp) h4x]
      simp only [List.map_cons, midToks, List.nil_append]
      rw [keepOuts_cons_neg _ hout]
    · rw [runBatches_cons_okstep, if_neg hout, writeStep0_mid _ _ hlen]
      rw [runBatches_ok (E := E) infer _ (c2 :: rest2) 1 [infer c0] (le_refl 1) h2x
        (by simp) h4x]
      simp only [List.map_cons, midToks, List.nil_append] at hws ⊢
      rw [keepOuts_cons_pos _ hout, sepToks_cons_of_ne _ hws]
      simp

/-- End-to-end behaviour of `embedChunks` when acquisition always succeeds and
the final batch's inference output is non-empty: every non-final batch whose
output is empty is silently dropped, the scratch file parses, is deleted, and
the concatenation of the batch outputs is returned. -/
theorem embedChunks_char {E : Type} (infer : List String → List Vec) (m : Nat)
    (texts : List String) (ht : texts ≠ [])
    (hlast : ∀ b, (toChunks texts (m + 1)).getLast? = some b → (infer b).length ≠ 0) :
    embedChunks (E := E) (fun _ => Except.ok infer) (m + 1) texts =
      ⟨Except.ok (some (((toChunks texts (m + 1)).map infer).flatten)), none⟩ := by
  have hne : toChunks texts (m + 1) ≠ [] := by
    obtain ⟨x, xs, rfl⟩ := List.exists_cons_of_ne_nil ht
    exact toChunks_cons_ne_nil m x xs
  have hrun := runBatches_full (E := E) infer (toChunks texts (m + 1)) hne hlast
  have hws : keepOuts ((toChunks texts (m + 1)).map infer) ≠ [] := by
    have hb0 : (toChunks texts (m + 1)).getLast? =
        some ((toChunks texts (m + 1)).getLast hne) :=
      List.getLast?_eq_getLast_of_ne_nil hne
    refine keepOuts_ne_nil _ (infer ((toChunks texts (m + 1)).getLast hne)) ?_ (hlast _ hb0)
    rw [List.getLast?_map, hb0]
    rfl
  simp only [embedChunks]
  rw [hrun]
  simp only [finishRead, jsonParse_sepToks]
  rw [if_pos (by simpa [List.length_pos] using hws), keepOuts_flatten]

/-! ### The failure path of the loop -/

theorem openFile_isSome (idx : Nat) (file : ScratchFile) (h : idx = 0 ∨ file.isSome) :
    (openFile idx file).isSome := by
  by_cases hidx : idx = 0
  · simp [openFile, hidx, appendTok]
  · rcases h with h | h
    · exact absurd h hidx
    · rcases file with _ | toks
      · simp at h
      · simp [openFile, hidx]

theorem closeFile_isSome (len idx : Nat) (file : ScratchFile) :
    (closeFile len idx file).isSome := by
  by_cases h : len - 1 = idx <;> simp [closeFile, appendTok, h]

theorem runBatches_cons_okstep2 {E : Type} (client : Nat → Except E (List String → List Vec))
    (len idx : Nat) (chunk : List String) (rest : List (List String)) (file : ScratchFile)
    (inf : List String → List Vec) (h : client idx = Except.ok inf) :
    runBatches client len idx (chunk :: rest) file =
      if (inf chunk).length = 0 then
        runBatches client len (idx + 1) rest (openFile idx file)
      else
        runBatches client len (idx + 1) rest
          (closeFile len idx (appendTok (openFile idx file) (Tok.data (inf chunk)))) := by
  rw [runBatches_cons, h]

theorem runBatches_fail {E : Type} (client : Nat → Except E (List String → List Vec))
    (len : Nat) :
    ∀ (rest : List (List String)) (idx i : Nat) (file : ScratchFile) (e : E),
      i < rest.length →
      (∀ j, j < i → ∃ inf, client (idx + j) = Except.ok inf) →
      client (idx + i) = Except.error e →
      (idx = 0 ∨ file.isSome) →
      (runBatches client len idx rest file).2 = some e ∧
        ((runBatches client len idx rest file).1).isSome := by
  intro rest
  induction rest with
  | nil =>
    intro idx i file e hi
    simp at hi
  | cons chunk rest ih =>
    intro idx i file e hi hok he hfile
    cases i with
    | zero =>
      rw [runBatches_cons_err client len idx chunk rest file e (by simpa using he)]
      exact ⟨rfl, openFile_isSome idx file hfile⟩
    | succ i2 =>
      obtain ⟨inf, hinf⟩ := hok 0 (by omega)
      rw [runBatches_cons_okstep2 client len idx chunk rest file inf (by simpa using hinf)]
      have hok2 : ∀ j, j < i2 → ∃ inf2, client (idx + 1 + j) = Except.ok inf2 := by
        intro j hj
        have h2 := hok (j + 1) (by omega)
        have heq : idx + (j + 1) = idx + 1 + j := by omega
        rw [heq] at h2
        exact h2
      have he2 : client (idx + 1 + i2) = Except.error e := by
        have heq : idx + (i2 + 1) = idx + 1 + i2 := by omega
        rw [← heq]
        exact he
      by_cases hout : (inf chunk).length = 0
      · rw [if_pos hout]
        exact ih (idx + 1) i2 (openFile idx file) e (by simpa using hi) hok2 he2
          (Or.inr (openFile_isSome idx file hfile))
      · rw [if_neg hout]
        exact ih (idx + 1) i2 _ e (by simpa using hi) hok2 he2
          (Or.inr (closeFile_isSome len idx _))

/-- Pointwise pipeline behaviour: when acquisition always succeeds and the
capability embeds each text of a batch independently (one vector per text, in
order), `embedChunks` on a non-empty input returns the per-text embeddings in
input order. -/
theorem embedChunks_pointwise {E : Type} (f : String → Vec)
    (infer : List String → List Vec) (mcc : Nat) (texts : List String)
    (hm : 0 < mcc) (ht : texts ≠ []) (hpt : ∀ b, infer b = b.map f) :
    (embedChunks (E := E) (fun _ => Except.ok infer) mcc texts).result =
      Except.ok (some (texts.map f)) := by
  obtain ⟨m, rfl⟩ : ∃ m, mcc = m + 1 := ⟨mcc - 1, by omega⟩
  have hlast : ∀ b, (toChunks texts (m + 1)).getLast? = some b → (infer b).length ≠ 0 := by
    intro b hb
    have hmem : b ∈ toChunks texts (m + 1) := mem_of_getLast?_eq hb
    have hbne : b ≠ [] := toChunks_mem_ne_nil m texts b hmem
    rw [hpt b, List.length_map]
    simpa [List.length_eq_zero] using hbne
  rw [embedChunks_char (E := E) infer m texts ht hlast]
  have hmap : (toChunks texts (m + 1)).map infer =
      (toChunks texts (m + 1)).map (List.map f) :=
    List.map_congr_left (fun b _ => hpt b)
  rw [hmap, ← List.map_flatten, toChunks_flatten m texts]

/-! ## Claim C1: one vector per input text, in input order -/

/-- C1 counterexample: the claim quantifies over every input list of texts,
but on the empty list `embedChunks` returns no vector list at all — no batch
runs, the scratch file is never created, and read-back throws the file-missing
error. -/
theorem embedChunks_nil_input_errors :
    (embedChunks (E := Nat) (fun _ => Except.ok inferOnes) 25 []).result =
      Except.error EmbedError.readMissing := by
  simp [embedChunks, toChunks, runBatches_nil, finishRead]

/-- C1 (amended): for every NON-EMPTY input list of texts partitioned into
batches of size at most `maxConcurrentChunks`, when acquisition succeeds and
the capability embeds each text of a batch to one vector in order,
`embedChunks` returns the flat list with exactly one vector per input text, in
input order. -/
theorem embedChunks_flat_ordered {E : Type} (f : String → Vec)
    (infer : List String → List Vec) (mcc : Nat) (texts : List String)
    (hm : 0 < mcc) (ht : texts ≠ []) (hpt : ∀ b, infer b = b.map f) :
    (embedChunks (E := E) (fun _ => Except.ok infer) mcc texts).result =
      Except.ok (some (texts.map f)) :=
  embedChunks_pointwise f infer mcc texts hm ht hpt

/-- C1 witness: five texts with batch size 2 (three batches) come back as five
vectors in order. -/
theorem embedChunks_flat_ordered_witness :
    (embedChunks (E := Nat) (fun _ => Except.ok inferOnes) 2
        ["a", "b", "c", "d", "e"]).result =
      Except.ok (some [[1], [1], [1], [1], [1]]) := by
  have h := embedChunks_flat_ordered (E := Nat) (fun _ => [1]) inferOnes 2
    ["a", "b", "c", "d", "e"] (by decide) (by decide) (fun b => rfl)
  simpa using h

/-! ## Claim C2: embedChunks on the empty list -/

/-- C2 counterexample: `embedChunks([])` does not return null; it throws the
read-back error because the scratch file was never created. -/
theorem embedChunks_nil_not_null :
    (embedChunks (E := Nat) (fun _ => Except.ok inferTwos) 2 []).result ≠
        Except.ok none ∧
      (embedChunks (E := Nat) (fun _ => Except.ok inferTwos) 2 []).result =
        Except.error EmbedError.readMissing := by
  constructor
  · simp [embedChunks, toChunks, runBatches_nil, finishRead]
  · simp [embedChunks, toChunks, runBatches_nil, finishRead]

/-- C2 (amended): `embedChunks` on the empty list processes no batches, never
creates the scratch file, and throws the file-missing read error (the `null`
return is not reached). -/
theorem embedChunks_nil_throws {E : Type}
    (client : Nat → Except E (List String → List Vec)) (mcc : Nat) :
    embedChunks client mcc [] = ⟨Except.error EmbedError.readMissing, none⟩ := by
  simp [embedChunks, toChunks, runBatches_nil, finishRead]

/-! ## Claim C3: scratch-file deletion -/

/-- C3 counterexample: a run whose final batch output is empty leaves an
unterminated JSON array in the scratch file; `JSON.parse` throws before the
`fs.rmSync` line and the file is NOT removed when the error reaches the
caller. -/
theorem scratch_left_after_parse_failure :
    (embedChunks (E := Nat) (fun _ => Except.ok inferDropSingles) 2
        ["a", "b", "c"]).file =
        some [Tok.lbracket, Tok.data [[4], [4]], Tok.comma] ∧
      (embedChunks (E := Nat) (fun _ => Except.ok inferDropSingles) 2
        ["a", "b", "c"]).result = Except.error EmbedError.parseError := by
  constructor <;>
    simp [embedChunks, toChunks, runBatches, openFile, closeFile, appendTok, finishRead,
      jsonParse, parseSep, inferDropSingles]

/-- C3 (amended): after the loop, the scratch file is deleted exactly on the
success path: every completed call that returns a value has removed the file,
and every call that fails with the parse error has left the file on disk. -/
theorem scratch_delete_iff_parse {E : Type}
    (client : Nat → Except E (List String → List Vec)) (mcc : Nat)
    (texts : List String) :
    (∀ r, (embedChunks client mcc texts).result = Except.ok r →
        (embedChunks client mcc texts).file = none) ∧
      ((embedChunks client mcc texts).result = Except.error EmbedError.parseError →
        ((embedChunks client mcc texts).file).isSome) := by
  simp only [embedChunks]
  rcases hr : runBatches client (toChunks texts mcc).length 0 (toChunks texts mcc) none
    with ⟨file, err⟩
  cases err with
  | some e => simp
  | none =>
    cases file with
    | none => simp [finishRead]
    | some toks =>
      cases hp : jsonParse toks with
      | none => simp [finishRead, hp]
      | some results => simp [finishRead, hp]

/-! ## Claim C4: silently skipped empty batch results -/

/-- C4 counterexample: when the LAST batch's inference output is empty, the
closing bracket is never written; instead of proceeding silently with an
under-counted result, the call raises the read-back parse error. -/
theorem empty_last_batch_raises :
    (embedChunks (E := Nat) (fun _ => Except.ok inferNothing) 25 ["x"]).result =
      Except.error EmbedError.parseError := by
  simp [embedChunks, toChunks, runBatches, openFile, closeFile, appendTok, finishRead,
    jsonParse, parseSep, inferNothing]

/-- C4 (amended): an empty inference result on a NON-FINAL batch is skipped
without any error and its vectors are silently dropped — provided the final
batch's output is non-empty, the call returns the concatenation of all batch
outputs, which under-counts the input length when some batch was dropped.  (An
empty result on the final batch instead raises a parse error, see the
counterexample.) -/
theorem empty_batch_skipped_when_not_last {E : Type} (infer : List String → List Vec)
    (mcc : Nat) (texts : List String) (hm : 0 < mcc) (ht : texts ≠ [])
    (hlast : ∀ b, (toChunks texts mcc).getLast? = some b → (infer b).length ≠ 0) :
    (embedChunks (E := E) (fun _ => Except.ok infer) mcc texts).result =
      Except.ok (some (((toChunks texts mcc).map infer).flatten)) := by
  obtain ⟨m, rfl⟩ : ∃ m, mcc = m + 1 := ⟨mcc - 1, by omega⟩
  rw [embedChunks_char (E := E) infer m texts ht hlast]

/-- C4 witness: three texts in batches of two; the first batch's output is
empty and is silently dropped, the call succeeds with one vector for three
input texts. -/
theorem empty_batch_skipped_when_not_last_witness :
    (embedChunks (E := Nat) (fun _ => Except.ok inferOnlySingles) 2
        ["a", "b", "c"]).result = Except.ok (some [[9]]) := by
  have h := empty_batch_skipped_when_not_last (E := Nat) inferOnlySingles 2
    ["a", "b", "c"] (by decide) (by decide)
    (by
      intro b hb
      simp [toChunks] at hb
      subst hb
      decide)
  simpa [toChunks, inferOnlySingles] using h

/-! ## Claim C9: acquisition failure inside the loop -/

/-- C9: when acquisition fails at some batch (all earlier batches having
acquired successfully), the exception propagates immediately to the caller and
the scratch file written so far is left on disk. -/
theorem acquisition_failure_leaves_scratch {E : Type}
    (client : Nat → Except E (List String → List Vec)) (mcc : Nat)
    (texts : List String) (i : Nat) (e : E)
    (hi : i < (toChunks texts mcc).length)
    (hok : ∀ j, j < i → ∃ inf, client j = Except.ok inf)
    (he : client i = Except.error e) :
    (embedChunks client mcc texts).result = Except.error (EmbedError.acquisition e) ∧
      ((embedChunks client mcc texts).file).isSome := by
  have hfail := runBatches_fail client (toChunks texts mcc).length (toChunks texts mcc)
    0 i none e hi (by simpa using hok) (by simpa using he) (Or.inl rfl)
  simp only [embedChunks]
  rcases hr : runBatches client (toChunks texts mcc).length 0 (toChunks texts mcc) none
    with ⟨file, err⟩
  rw [hr] at hfail
  obtain ⟨h2, h1⟩ := hfail
  simp only at h2 h1
  subst h2
  exact ⟨rfl, h1⟩

/-- C9 witness: acquisition throws `7` on the first batch of a one-text input;
the error surfaces as-is and the scratch file (already holding the opening
bracket) survives. -/
theorem acquisition_failure_leaves_scratch_witness :
    (embedChunks clientFailsFirst 25 ["a"]).result =
        Except.error (EmbedError.acquisition 7) ∧
      ((embedChunks clientFailsFirst 25 ["a"]).file).isSome :=
  acquisition_failure_leaves_scratch clientFailsFirst 25 ["a"] 0 7
    (by simp [toChunks]) (fun j hj => absurd hj (by omega)) rfl

/-! ## Claim C5: primary-then-fallback acquisition -/

/-- C5: acquisition attempts the primary source first; on failure and only
when no override was requested it retries exactly once against the fixed
fallback host (an overridden attempt never offers a retry, and every call
attempts at most these two hosts); when the fallback also fails, exactly the
last underlying error propagates. -/
theorem embedderClient_single_fallback {E P : Type} (env : Host → Except E P)
    (md : Bool) (e1 e2 : E) (h1 : env Host.primary = Except.error e1)
    (h2 : env Host.fallback = Except.error e2) :
    (embedderClient env md).result = Except.error (some e2) ∧
      (embedderClient env md).attempts = [Host.primary, Host.fallback] ∧
      (∀ (env2 : Host → Except E P) (md2 : Bool) (h : Host),
        (fetchWithHost env2 md2 (some h)).response.retry = none) ∧
      (∀ (env3 : Host → Except E P) (md3 : Bool),
        (embedderClient env3 md3).attempts = [Host.primary] ∨
          (embedderClient env3 md3).attempts = [Host.primary, Host.fallback]) := by
  refine ⟨?_, ?_, ?_, ?_⟩
  · simp [embedderClient, fetchWithHost, h1, h2]
  · simp [embedderClient, fetchWithHost, h1, h2]
  · intro env2 md2 h
    cases henv : env2 h <;> simp [fetchWithHost, henv]
  · intro env3 md3
    cases henv : env3 Host.primary with
    | ok p => left; simp [embedderClient, fetchWithHost, henv]
    | error e =>
      right
      cases henv2 : env3 Host.fallback <;>
        simp [embedderClient, fetchWithHost, henv, henv2]

/-- C5 witness: with both hosts failing with error `5`, the call attempts
primary then fallback and throws the last error. -/
theorem embedderClient_single_fallback_witness :
    (embedderClient envAllFail false).result = Except.error (some 5) ∧
      (embedderClient envAllFail false).attempts = [Host.primary, Host.fallback] :=
  ⟨(embedderClient_single_fallback envAllFail false 5 5 rfl rfl).1,
    (embedderClient_single_fallback envAllFail false 5 5 rfl rfl).2.1⟩

/-! ## Claim C8: the already-downloaded flag is monotonic -/

/-- C8: one `embedderClient` call never flips `modelDownloaded` from true back
to false, sets it to true on success from either source, and when it was
already true the call attaches no download-progress logging. -/
theorem modelDownloaded_monotone_and_quiet {E P : Type} (env : Host → Except E P)
    (md : Bool) :
    (md = true → (embedderClient env md).modelDownloaded = true) ∧
      (∀ p, (embedderClient env md).result = Except.ok p →
        (embedderClient env md).modelDownloaded = true) ∧
      (md = true → (embedderClient env md).progressEnabled = false) := by
  cases h1 : env Host.primary with
  | ok p => simp [embedderClient, fetchWithHost, h1]
  | error e =>
    cases h2 : env Host.fallback with
    | ok p => simp [embedderClient, fetchWithHost, h1, h2]
    | error e2 => simp [embedderClient, fetchWithHost, h1, h2]

/-- C8 witness: with the flag already true and a successful fallback
acquisition, the flag stays true and no progress logging is attached. -/
theorem modelDownloaded_monotone_and_quiet_witness :
    (embedderClient envFallbackOk true).modelDownloaded = true ∧
      (embedderClient envFallbackOk true).progressEnabled = false :=
  ⟨(modelDownloaded_monotone_and_quiet envFallbackOk true).2.1 1 rfl,
    (modelDownloaded_monotone_and_quiet envFallbackOk true).2.2 rfl⟩

/-! ## Claim C6: model resolution -/

/-- C6: for every supported identifier the resolver returns that identifier
and its registered descriptor; for every unsupported identifier and for the
unset preference it returns the default model's descriptor; and it never fails
(the lookup of the resolved identifier is always populated). -/
theorem resolveModel_spec (reg : String → Option ModelSettings)
    (dDef : ModelSettings) (hdef : reg defaultModel = some dDef) :
    (∀ id d, reg id = some d →
        getEmbeddingModel reg (some id) = id ∧ getEmbedderInfo reg (some id) = some d) ∧
      (∀ id, reg id = none → getEmbedderInfo reg (some id) = some dDef) ∧
      (getEmbedderInfo reg none = some dDef) ∧
      (∀ pref, (getEmbedderInfo reg pref).isSome) := by
  have hmain : ∀ pref, (∀ id d, pref = some id → reg id = some d →
      getEmbeddingModel reg pref = id ∧ getEmbedderInfo reg pref = some d) ∧
      (∀ id, pref = some id → reg id = none → getEmbedderInfo reg pref = some dDef) := by
    intro pref
    constructor
    · intro id d hpref h
      subst hpref
      constructor
      · simp [getEmbeddingModel, h]
      · simp [getEmbedderInfo, getEmbeddingModel, h]
    · intro id hpref h
      subst hpref
      simp [getEmbedderInfo, getEmbeddingModel, h, hdef]
  refine ⟨fun id d h => (hmain (some id)).1 id d rfl h,
    fun id h => (hmain (some id)).2 id rfl h, ?_, ?_⟩
  · simp [getEmbedderInfo, getEmbeddingModel, hdef]
  · intro pref
    cases pref with
    | none => simp [getEmbedderInfo, getEmbeddingModel, hdef]
    | some id =>
      cases h : reg id with
      | none => rw [(hmain (some id)).2 id rfl h]; rfl
      | some d => rw [((hmain (some id)).1 id d rfl h).2]; rfl

/-- C6 witness: on a concrete two-model registry, a supported identifier
resolves to its own descriptor, an unsupported identifier and the unset
preference resolve to the default descriptor. -/
theorem resolveModel_spec_witness :
    getEmbedderInfo regFixture (some "Xenova/nomic-embed-text-v1") = some nomicSettings ∧
      getEmbedderInfo regFixture (some "openai/ada") = some miniSettings ∧
      getEmbedderInfo regFixture none = some miniSettings :=
  ⟨((resolveModel_spec regFixture miniSettings (by decide)).1
      "Xenova/nomic-embed-text-v1" nomicSettings (by decide)).2,
    (resolveModel_spec regFixture miniSettings (by decide)).2.1 "openai/ada" (by decide),
    (resolveModel_spec regFixture miniSettings (by decide)).2.2.1⟩

/-! ## Claim C7: query-prefix application -/

/-- C7: `applyQueryPrefix` is the identity when the model's queryPrefix is
empty; otherwise it keeps the input's shape and prepends exactly the prefix to
the single string or to every element of the list, with no extra delimiter. -/
theorem applyQueryPrefix_spec :
    (∀ t, applyQueryPrefix "" t = t) ∧
      (∀ qp s, qp ≠ "" →
        applyQueryPrefix qp (TextInput.single s) = TextInput.single (qp ++ s)) ∧
      (∀ qp ss, qp ≠ "" →
        applyQueryPrefix qp (TextInput.list ss) =
          TextInput.list (ss.map (fun text => qp ++ text))) := by
  refine ⟨fun t => ?_, fun qp s h => ?_, fun qp ss h => ?_⟩
  · simp [applyQueryPrefix]
  · simp [applyQueryPrefix, h]
  · simp [applyQueryPrefix, h]

/-- C7 witness: identity on an empty prefix; exact prefixing of every list
element on a non-empty prefix. -/
theorem applyQueryPrefix_spec_witness :
    applyQueryPrefix "" (TextInput.single "hello") = TextInput.single "hello" ∧
      applyQueryPrefix "search_query: " (TextInput.list ["a", "b"]) =
        TextInput.list ["search_query: a", "search_query: b"] := by
  constructor
  · exact applyQueryPrefix_spec.1 (TextInput.single "hello")
  · rw [applyQueryPrefix_spec.2.2 "search_query: " ["a", "b"] (by decide)]
    decide

/-! ## Claim C10: embedTextInput on list inputs -/

/-- C10: `embedTextInput` also accepts a list of strings: on a non-empty list
it prefixes every element, embeds the whole list through the chunked pipeline,
and returns only the first resulting vector; and its `result?.[0] || []`
post-processing returns the empty vector when the pipeline yields null or an
empty list. -/
theorem embedTextInput_list_first {E : Type} (f : String → Vec)
    (infer : List String → List Vec) (mcc : Nat) (qp s : String)
    (rest : List String) (hm : 0 < mcc) (hpt : ∀ b, infer b = b.map f) :
    embedTextInput (E := E) (fun _ => Except.ok infer) mcc qp
        (TextInput.list (s :: rest)) = Except.ok (f (qp ++ s)) ∧
      firstOrEmpty none = [] ∧ firstOrEmpty (some []) = [] := by
  refine ⟨?_, rfl, rfl⟩
  by_cases hqp : qp = ""
  · subst hqp
    simp only [embedTextInput, applyQueryPrefix, if_true]
    rw [embedChunks_pointwise (E := E) f infer mcc (s :: rest) hm (by simp) hpt]
    simp [firstOrEmpty]
  · simp only [embedTextInput, applyQueryPrefix, if_neg hqp]
    rw [embedChunks_pointwise (E := E) f infer mcc ((s :: rest).map (fun text => qp ++ text))
      hm (by simp) hpt]
    simp [firstOrEmpty]

/-- C10 witness: a two-element list input with a non-empty prefix embeds the
whole list and returns only the first vector. -/
theorem embedTextInput_list_first_witness :
    embedTextInput (E := Nat) (fun _ => Except.ok inferOnes) 3 "q: "
        (TextInput.list ["a", "b"]) = Except.ok [1] :=
  (embedTextInput_list_first (E := Nat) (fun _ => [1]) inferOnes 3 "q: " "a" ["b"]
    (by decide) (fun b => rfl)).1
